import Mathlib

/-!
Shallow embedding of the Electrum RPC frontend (`src/electrum.rs`) of the
ABMatrix/electrs repository, together with theorems settling the claims of
its natural-language specification.

Conventions used throughout:
* Machine integers are modelled as `Nat`/`Int`.  `usize` subtraction that
  would underflow, out-of-bounds `Vec` indexing/removal, `unwrap`/`expect`
  on empty values and `u64` overflow in `Amount` addition all panic in the
  Rust source; every code path that can panic is modelled as an
  `Option`-valued function, `none` meaning a panic.
* Fallible code (`anyhow::Result`) is modelled with `Except HErr`.
* External collaborators (tracker, daemon, cache, merkle, the bitcoin and
  serde libraries, `config.rs`) are not under `src/`; they are modelled as
  function-valued fields of the corresponding model structures, following
  the spec's collaborator contracts (spec section 6).
-/

namespace Electrs

/-- JSON values, modelling `serde_json::Value`.  `serde_json`'s default map
is a `BTreeMap`, so object keys are stored sorted; every object built below
is written with its keys in sorted order, matching what the source's `json!`
literals produce after that sorting. -/
inductive Json where
  | null
  | bool (b : Bool)
  | num (n : Int)
  | str (s : String)
  | arr (xs : List Json)
  | obj (kvs : List (String × Json))

/-- One hexadecimal digit. -/
def hexDigitStr (n : Nat) : String :=
  if n < 10 then toString n
  else if n = 10 then "a" else if n = 11 then "b" else if n = 12 then "c"
  else if n = 13 then "d" else if n = 14 then "e" else "f"

/-- JSON string escaping as `serde_json` performs it. -/
def escChar (c : Char) : String :=
  if c = '"' then "\\\""
  else if c = '\\' then "\\\\"
  else if c = '\n' then "\\n"
  else if c = '\r' then "\\r"
  else if c = '\t' then "\\t"
  else if c.toNat = 8 then "\\b"
  else if c.toNat = 12 then "\\f"
  else if c.toNat < 32 then "\\u00" ++ hexDigitStr (c.toNat / 16) ++ hexDigitStr (c.toNat % 16)
  else String.singleton c

/-- A JSON-quoted string. -/
def quoteStr (s : String) : String :=
  "\"" ++ String.join (s.data.map escChar) ++ "\""

mutual

/-- Compact serialisation of a JSON value, as `serde_json::Value::to_string`
produces it (no whitespace). -/
def Json.toStr : Json → String
  | .null => "null"
  | .bool b => cond b "true" "false"
  | .num n => toString n
  | .str s => quoteStr s
  | .arr xs => "[" ++ Json.arrToStr xs ++ "]"
  | .obj kvs => "\x7b" ++ Json.objToStr kvs ++ "\x7d"

def Json.arrToStr : List Json → String
  | [] => ""
  | [x] => Json.toStr x
  | x :: y :: xs => Json.toStr x ++ "," ++ Json.arrToStr (y :: xs)

def Json.objToStr : List (String × Json) → String
  | [] => ""
  | [(k, v)] => quoteStr k ++ ":" ++ Json.toStr v
  | (k, v) :: e :: xs => quoteStr k ++ ":" ++ Json.toStr v ++ "," ++ Json.objToStr (e :: xs)

end

/-- First value bound to a key in a JSON object's entry list. -/
def lookupKey (k : String) : List (String × Json) → Option Json
  | [] => none
  | (k1, v) :: rest => if k1 = k then some v else lookupKey k rest

/-- The `"id"` member of a JSON-RPC response object. -/
def idOf : Json → Option Json
  | .obj kvs => lookupKey "id" kvs
  | _ => none

/-- The `"error"."code"` member of a JSON-RPC response object, when present. -/
def errorCode (j : Json) : Option Int :=
  match j with
  | .obj kvs =>
    match lookupKey "error" kvs with
    | some (.obj e) =>
      match lookupKey "code" e with
      | some (.num n) => some n
      | _ => none
    | _ => none
  | _ => none

/-- Script hashes (`types.rs`, not under `src/`) are opaque 32-byte digests
compared by value; modelled as their numeric value. -/
abbrev ScriptHash := Nat

/-- Transaction ids are opaque 32-byte digests compared by value. -/
abbrev Txid := Nat

/-- Block hashes, modelled by their hex representation. -/
abbrev BlockHash := String

/-- Opaque decoded transaction (the external `bitcoin::Transaction` type). -/
abbrev Tx := String

/-- Modelled from the spec: `UnspentEntry` lives in `status.rs`, which is not
under `src/`.  Spec section 3: `{tx_hash, vout, value (sats, u64),
height (i32, 0 = mempool)}`, comparable by `value`. -/
structure UnspentEntry where
  txHash : Txid
  vout : Nat
  value : Nat
  height : Int
  deriving DecidableEq

/-- Modelled from the spec: `ScriptHashStatus` lives in `status.rs`, not under
`src/`.  Spec section 3: it exposes `status_hash()` (a digest, or null while
the history is empty), `get_history(from, to)` and iteration over unspent
entries; it is created on first subscribe and updated in place by the
tracker. -/
structure ScriptHashStatus where
  scripthash : ScriptHash
  statushash : Option String
  history : List Json

/-- Modelled from the spec: `ScriptHashStatus::new` (status.rs, not under
`src/`) builds a fresh status whose history is empty and whose status hash is
null. -/
def ScriptHashStatus.new (sh : ScriptHash) : ScriptHashStatus := ⟨sh, none, []⟩

/-- Modelled from the spec: `get_history(from, to)` (status.rs, not under
`src/`); spec P10: the entries at indices `[from .. to)`, a `None` bound
meaning `0` resp. the history length. -/
def ScriptHashStatus.get_history (st : ScriptHashStatus) (fro upto : Option Nat) : List Json :=
  (st.history.take (upto.getD st.history.length)).drop (fro.getD 0)

/-- Handler errors (`anyhow::Error`): the errors whose root cause
`extract_bitcoind_error` recognises as daemon RPC errors are distinguished,
since `Call::response` maps them to code 2 instead of code 1. -/
inductive HErr where
  | bad (m : String)
  | daemonRpc (m : String)
  deriving DecidableEq

/-- Modelled from the spec (section 6): the chain view exposed by the
tracker.  `getBlockHeader` yields the header already serialised to hex (the
external `serialize_hex` is folded into the model). -/
structure ChainModel where
  tip : BlockHash
  height : Nat
  getBlockHeader : Nat → Option String
  getBlockHash : Nat → Option BlockHash

/-- Modelled from the spec (section 6): the tracker interface that `Rpc`
consumes.  `statusOk` models `Tracker::status().is_ok()` (the readiness
gate); `update_scripthash_status` returns the refreshed status (the Rust
function updates it in place). -/
structure TrackerModel where
  statusOk : Bool
  chain : ChainModel
  update_scripthash_status : ScriptHashStatus → Except HErr ScriptHashStatus
  getBalance : ScriptHashStatus → Json
  getUnspent : ScriptHashStatus → List UnspentEntry
  feesHistogram : Json
  lookupTransaction : Txid → Except HErr (Option (BlockHash × Tx))

/-- Modelled from the spec (section 6): daemon (bitcoind client) calls used
by the handlers.  `estimateFee` returns the fee-rate JSON when the daemon can
estimate. -/
structure DaemonModel where
  estimateFee : Nat → Except HErr (Option Json)
  getRelayFee : Except HErr Json
  broadcast : Tx → Except HErr Json
  getBlockTxids : BlockHash → Except HErr (List Txid)
  getTransactionInfo : Txid → Option BlockHash → Except HErr Json
  getTransactionHex : Txid → Except HErr Json

/-- Modelled from the spec (section 6): the rawtx cache; `getTx` returns the
cached transaction already rendered to hex (the closure the source passes). -/
structure CacheModel where
  getTx : Txid → Option String

/-- The Electrum RPC handler state (`Rpc` in the source).  The last three
fields model external library functions: consensus deserialisation and hex
serialisation of transactions (bitcoin crate) and `merkle::Proof::create`
(merkle.rs, not under `src/`), which yields the proof position and the hex
nodes. -/
structure Rpc where
  tracker : TrackerModel
  daemon : DaemonModel
  cache : CacheModel
  banner : String
  port : Nat
  electrsVersion : String
  deserializeTx : List Nat → Option Tx
  serializeTxHex : Tx → String
  proofCreate : List Txid → Nat → Nat × List String

/-- Per-client Electrum protocol state (`Client` in the source); the
`HashMap` is modelled as an association list with first-match lookup. -/
structure Client where
  tip : Option BlockHash := none
  scripthashes : List (ScriptHash × ScriptHashStatus) := []

/-- Model of `HashMap::get` on the modelled scripthash map. -/
def lookupSH (sh : ScriptHash) : List (ScriptHash × ScriptHashStatus) → Option ScriptHashStatus
  | [] => none
  | (k, st) :: rest => if k = sh then some st else lookupSH sh rest

def Client.find (c : Client) (sh : ScriptHash) : Option ScriptHashStatus :=
  lookupSH sh c.scripthashes

/-- Insertion of a vacant key (`Entry::Vacant::insert`). -/
def Client.insert (c : Client) (sh : ScriptHash) (st : ScriptHashStatus) : Client :=
  { c with scripthashes := (sh, st) :: c.scripthashes }

/-- Model of `HashMap::remove` on the modelled scripthash map. -/
def removeSH (sh : ScriptHash) : List (ScriptHash × ScriptHashStatus) → List (ScriptHash × ScriptHashStatus)
  | [] => []
  | (k, st) :: rest => if k = sh then rest else (k, st) :: removeSH sh rest

/-- JSON-RPC standard errors (`StandardError` in the source). -/
inductive StandardError where
  | parseError
  | invalidRequest
  | methodNotFound
  | invalidParams
  deriving DecidableEq

/-- Error carrier `RpcError` of the source. -/
inductive RpcError where
  | standard (e : StandardError)
  | badRequest (m : String)
  | daemonError (m : String)
  | unavailableIndex
  deriving DecidableEq

/-- Model of `RpcError::to_value`. -/
def RpcError.to_value : RpcError → Json
  | .standard .parseError => .obj [("code", .num (-32700)), ("message", .str "parse error")]
  | .standard .invalidRequest => .obj [("code", .num (-32600)), ("message", .str "invalid request")]
  | .standard .methodNotFound => .obj [("code", .num (-32601)), ("message", .str "method not found")]
  | .standard .invalidParams => .obj [("code", .num (-32602)), ("message", .str "invalid params")]
  | .badRequest m => .obj [("code", .num 1), ("message", .str m)]
  | .daemonError m => .obj [("code", .num 2), ("message", .str m)]
  | .unavailableIndex => .obj [("code", .num (-32603)), ("message", .str "unavailable index")]

/-- Model of `result_msg`: a success response (object keys in sorted order). -/
def result_msg (id : Json) (result : Json) : Json :=
  .obj [("id", id), ("jsonrpc", .str "2.0"), ("result", result)]

/-- Model of `error_msg`: an error response (object keys in sorted order). -/
def error_msg (id : Json) (error : RpcError) : Json :=
  .obj [("error", error.to_value), ("id", id), ("jsonrpc", .str "2.0")]

/-- Model of `error_msg_no_id`. -/
def error_msg_no_id (e : StandardError) : Json :=
  error_msg .null (.standard e)

/-- The `server.version` argument (`Version` in the source): serde's untagged
deserialisation of either a single string or a `[min, max]` pair. -/
inductive VersionArg where
  | single (v : String)
  | range (lo hi : String)
  deriving DecidableEq

/-- Model of `TxGetArgs`, already flattened to `(Txid, bool)` as `From<&TxGetArgs>`
does. -/
structure TxGet where
  txid : Txid
  verbose : Bool
  deriving DecidableEq

/-- The typed parameter variants (`Params` in the source). -/
inductive Params where
  | banner
  | blockHeader (height : Nat)
  | blockHeaders (start count : Nat)
  | transactionBroadcast (txHex : String)
  | donation
  | estimateFee (nblocks : Nat)
  | features
  | headersSubscribe
  | mempoolFeeHistogram
  | peersSubscribe
  | ping
  | relayFee
  | scriptHashGetBalance (sh : ScriptHash)
  | scriptHashGetHistory (sh : ScriptHash)
  | scriptHashGetHistoryFilter (sh : ScriptHash) (fro upto : Option Nat)
  | scriptHashListUnspent (sh : ScriptHash)
  | scriptHashSelectUnspent (sh : ScriptHash) (amounts : List Nat) (minAmount : Nat) (confirmed : Bool)
  | scriptHashUnspentExist (sh : ScriptHash) (txid : Txid)
  | scriptHashSubscribe (sh : ScriptHash)
  | scriptHashUnsubscribe (sh : ScriptHash)
  | transactionGet (args : TxGet)
  | transactionGetMerkle (txid : Txid) (height : Nat)
  | transactionFromPosition (height pos : Nat) (merkle : Bool)
  | version (clientId : String) (v : VersionArg)
  deriving DecidableEq

/-- The methods the readiness gate lets through while the index is not ready
(the allowlist `match` inside `Rpc::single_call`). -/
def Params.allowedNotReady : Params → Bool
  | .blockHeader _ => true
  | .blockHeaders _ _ => true
  | .headersSubscribe => true
  | .version _ _ => true
  | _ => false

/-- A successfully parsed call (`Call` in the source). -/
structure Call where
  id : Json
  method : String
  params : Params

/-- Model of `Call::response`: wrap a handler result into a response, mapping daemon
errors to code 2 and any other handler error to code 1. -/
def Call.response (call : Call) (r : Except HErr Json) : Json :=
  match r with
  | .ok v => result_msg call.id v
  | .error (.daemonRpc m) => error_msg call.id (.daemonError m)
  | .error (.bad m) => error_msg call.id (.badRequest m)

/-! ## The UTXO selector (`select_utxos` and its use in
`scripthash_select_unspent`) -/

/-- The greedy accumulation loop of `select_utxos` (the branch where no
single utxo reaches the target): `for i in 0..=max_len` pushing from the
largest end until the running total exceeds the target.  `fuel` is the number
of loop iterations left (initially `max_len + 1`); the returned components
are the chosen entries, their indices and the running total.  `none` models a
panic: the `utxo_len - 1 - i` underflow when `i > utxo_len - 1`, or `Amount`
addition overflowing `u64`. -/
def greedyGo (utxos : List UnspentEntry) (n target : Nat) :
    Nat → Nat → Nat → Option (List UnspentEntry × List Nat × Nat)
  | _, 0, total => some ([], [], total)
  | i, fuel + 1, total =>
    if n - 1 < i then none
    else
      let j := n - 1 - i
      let u := utxos.getD j ⟨0, 0, 0, 0⟩
      let total2 := total + u.value
      if 2 ^ 64 ≤ total2 then none
      else if target < total2 then some ([u], [j], total2)
      else (greedyGo utxos n target (i + 1) fuel total2).map
        fun (cs, js, t) => (u :: cs, j :: js, t)

/-- Model of `select_utxos`: the coin-selection heuristic.  Returns the chosen entries
together with their indices into the input; `none` models a panic. -/
def select_utxos (utxos : List UnspentEntry) (target : Nat) :
    Option (List UnspentEntry × List Nat) :=
  if utxos.length ≤ 3 then
    some (utxos, List.range utxos.length)
  else
    let n := utxos.length
    match utxos.findIdx? (fun u => target ≤ u.value) with
    | some index =>
      let sel : List Nat :=
        if index = 0 then [0, 1, 2]
        else if index = n - 1 then [0, n - 2, n - 1]
        else
          match (utxos.drop (index + 1)).findIdx? (fun u => 0 < u.height) with
          | some newIndex => [0, index, newIndex + index + 1]
          | none => [0, index, n - 1]
      if sel.all (· < n) then
        some (sel.map (fun i => utxos.getD i ⟨0, 0, 0, 0⟩), sel)
      else none
    | none =>
      (greedyGo utxos n target 0 (min n 20 + 1) 0).map fun (chosen, js, _) =>
        if chosen.length < 3 then
          (chosen ++ [utxos.getD 0 ⟨0, 0, 0, 0⟩], js ++ [0])
        else (chosen, js)

/-- The removal loop of `scripthash_select_unspent`:
`unspent_entries.remove(selcet_index - iter_index)` over the enumerated
chosen indices.  `none` models the `usize` underflow when
`iter_index > selcet_index` or an out-of-bounds `Vec::remove`. -/
def removeChosen : List UnspentEntry → List Nat → Nat → Option (List UnspentEntry)
  | es, [], _ => some es
  | es, selIdx :: rest, iterIdx =>
    if selIdx < iterIdx then none
    else
      let k := selIdx - iterIdx
      if k < es.length then removeChosen (es.eraseIdx k) rest (iterIdx + 1)
      else none

/-- The per-target loop of `scripthash_select_unspent`: select for each
target amount in order, removing the chosen entries before the next target,
and accumulate the chosen entries. -/
def selectTargets (es : List UnspentEntry) :
    List Nat → Option (List UnspentEntry × List UnspentEntry)
  | [] => some (es, [])
  | t :: ts =>
    (select_utxos es t).bind fun (part, js) =>
      (removeChosen es js 0).bind fun es2 =>
        (selectTargets es2 ts).map fun (esf, acc) => (esf, part ++ acc)

/-- Stable insertion by `value`, modelling the stable
`sort_by(partial_cmp(value))` of the source. -/
def insertByValue (u : UnspentEntry) : List UnspentEntry → List UnspentEntry
  | [] => [u]
  | v :: rest =>
    if u.value < v.value then u :: v :: rest else v :: insertByValue u rest

/-- Stable sort ascending by `value`. -/
def sortByValue (es : List UnspentEntry) : List UnspentEntry :=
  es.foldl (fun acc u => insertByValue u acc) []

/-- The `retain` predicate of `scripthash_select_unspent`:
`value >= min_amount` and, when `confirmed`, `height > 0`. -/
def keepEntry (minAmount : Nat) (confirmed : Bool) (u : UnspentEntry) : Bool :=
  minAmount ≤ u.value && (if confirmed then decide (0 < u.height) else true)

/-! ## Handlers -/

/-- Model of `Rpc::new_status`: build a fresh status and refresh it against the
tracker. -/
def Rpc.new_status (rpc : Rpc) (sh : ScriptHash) : Except HErr ScriptHashStatus :=
  rpc.tracker.update_scripthash_status (ScriptHashStatus.new sh)

/-- Model of `format!("electrs/{}", ELECTRS_VERSION)`. -/
def Rpc.server_id (rpc : Rpc) : String :=
  "electrs/" ++ rpc.electrsVersion

/-- Rendering of a `Version` argument by `{:?}` (Rust `Debug`), used in the
rejection message of `Rpc::version`. -/
def VersionArg.debugStr : VersionArg → String
  | .single v => "Single(" ++ quoteStr v ++ ")"
  | .range lo hi => "Range(" ++ quoteStr lo ++ ", " ++ quoteStr hi ++ ")"

/-- Model of `Rpc::version`: accept only the single string `"1.4"`
(`PROTOCOL_VERSION`); anything else is rejected with `bail!`. -/
def Rpc.version (rpc : Rpc) (clientId : String) (v : VersionArg) : Except HErr Json :=
  match v with
  | .single s =>
    if s = "1.4" then .ok (.arr [.str rpc.server_id, .str "1.4"])
    else .error (.bad (clientId ++ " requested " ++ (VersionArg.single s).debugStr ++ ", server supports 1.4"))
  | .range lo hi =>
    .error (.bad (clientId ++ " requested " ++ (VersionArg.range lo hi).debugStr ++ ", server supports 1.4"))

/-- Model of `Rpc::features` (object keys in sorted order, as serde_json emits). -/
def Rpc.features (rpc : Rpc) : Except HErr Json :=
  .ok (.obj
    [("genesis_hash", match rpc.tracker.chain.getBlockHash 0 with
                      | some h => .str h
                      | none => .null),
     ("hash_function", .str "sha256"),
     ("hosts", .obj [("tcp_port", .num rpc.port)]),
     ("protocol_max", .str "1.4"),
     ("protocol_min", .str "1.4"),
     ("pruning", .null),
     ("server_version", .str rpc.server_id)])

/-- Model of `Rpc::block_header`. -/
def Rpc.block_header (rpc : Rpc) (height : Nat) : Except HErr Json :=
  match rpc.tracker.chain.getBlockHeader height with
  | none => .error (.bad ("no header at " ++ toString height))
  | some hex => .ok (.str hex)

/-- Model of `Rpc::block_headers`. -/
def Rpc.block_headers (rpc : Rpc) (start count : Nat) : Except HErr Json :=
  let maxCount := 2016
  let endHeight := min (rpc.tracker.chain.height + 1) (start + min count maxCount)
  let heights := List.range' start (endHeight - start)
  let cnt := endHeight - start
  let hex := String.join (heights.filterMap rpc.tracker.chain.getBlockHeader)
  .ok (.obj [("count", .num cnt), ("hex", .str hex), ("max", .num maxCount)])

/-- Model of `Rpc::estimate_fee`; `UNKNOWN_FEE = -1` when the daemon cannot
estimate. -/
def Rpc.estimate_fee (rpc : Rpc) (nblocks : Nat) : Except HErr Json :=
  (rpc.daemon.estimateFee nblocks).map fun o => o.getD (.num (-1))

/-- Model of `Rpc::relayfee`. -/
def Rpc.relayfee (rpc : Rpc) : Except HErr Json :=
  rpc.daemon.getRelayFee

/-- Model of `Rpc::headers_subscribe`: store the chain tip into the client and return
`{height, hex}`.  `none` models the `get_block_header(height).unwrap()`
panic. -/
def Rpc.headers_subscribe (rpc : Rpc) (client : Client) : Option (Client × Except HErr Json) :=
  let client2 := { client with tip := some rpc.tracker.chain.tip }
  match rpc.tracker.chain.getBlockHeader rpc.tracker.chain.height with
  | none => none
  | some hex =>
    some (client2, .ok (.obj [("height", .num rpc.tracker.chain.height), ("hex", .str hex)]))

/-- Serialisation of an `UnspentEntry` (serde derive in status.rs, not under
`src/`); keys in sorted order, the tx hash rendered in hex. -/
def natHexAux : Nat → Nat → String
  | _, 0 => ""
  | n, fuel + 1 =>
    if n = 0 then "" else natHexAux (n / 16) fuel ++ hexDigitStr (n % 16)

/-- Hex rendering of a 32-byte digest (64 nibbles, zero-padded). -/
def hex64 (n : Nat) : String :=
  let s := if n = 0 then "" else natHexAux n 64
  String.join (List.replicate (64 - s.length) "0") ++ s

def unspentJson (u : UnspentEntry) : Json :=
  .obj [("height", .num u.height), ("tx_hash", .str (hex64 u.txHash)),
        ("tx_pos", .num u.vout), ("value", .num u.value)]

/-- Model of `json!(statushash)`: null while the history is empty, else the digest. -/
def statusJson (h : Option String) : Json :=
  match h with
  | none => .null
  | some s => .str s

/-- Model of `Rpc::scripthash_get_balance`: read the subscribed status or build (and
discard) a fresh one. -/
def Rpc.scripthash_get_balance (rpc : Rpc) (client : Client) (sh : ScriptHash) :
    Except HErr Json :=
  match client.find sh with
  | some st => .ok (rpc.tracker.getBalance st)
  | none => (rpc.new_status sh).map rpc.tracker.getBalance

/-- Model of `Rpc::scripthash_get_history`. -/
def Rpc.scripthash_get_history (rpc : Rpc) (client : Client) (sh : ScriptHash) :
    Except HErr Json :=
  match client.find sh with
  | some st => .ok (.arr (st.get_history none none))
  | none => (rpc.new_status sh).map fun st => .arr (st.get_history none none)

/-- Model of `Rpc::scripthash_get_history_filter`. -/
def Rpc.scripthash_get_history_filter (rpc : Rpc) (client : Client) (sh : ScriptHash)
    (fro upto : Option Nat) : Except HErr Json :=
  match client.find sh with
  | some st => .ok (.arr (st.get_history fro upto))
  | none => (rpc.new_status sh).map fun st => .arr (st.get_history fro upto)

/-- Model of `Rpc::scripthash_list_unspent`. -/
def Rpc.scripthash_list_unspent (rpc : Rpc) (client : Client) (sh : ScriptHash) :
    Except HErr Json :=
  match client.find sh with
  | some st => .ok (.arr ((rpc.tracker.getUnspent st).map unspentJson))
  | none => (rpc.new_status sh).map fun st => .arr ((rpc.tracker.getUnspent st).map unspentJson)

/-- Model of `Rpc::scripthash_select_unspent`: filter, sort, then select per target
amount.  `none` models a panic inside `select_utxos` or the index-shifted
removal. -/
def Rpc.scripthash_select_unspent (rpc : Rpc) (client : Client) (sh : ScriptHash)
    (amounts : List Nat) (minAmount : Nat) (confirmed : Bool) :
    Option (Except HErr Json) :=
  let entries : Except HErr (List UnspentEntry) :=
    match client.find sh with
    | some st => .ok (rpc.tracker.getUnspent st)
    | none => (rpc.new_status sh).map rpc.tracker.getUnspent
  match entries with
  | .error e => some (.error e)
  | .ok es =>
    let es1 := sortByValue (es.filter (keepEntry minAmount confirmed))
    (selectTargets es1 amounts).map fun (_, chosen) =>
      .ok (.arr (chosen.map unspentJson))

/-- Model of `Rpc::scripthash_unspent_is_exist`: whether some current unspent entry
has the given transaction hash (the output index is never examined). -/
def Rpc.scripthash_unspent_is_exist (rpc : Rpc) (client : Client) (sh : ScriptHash)
    (txid : Txid) : Except HErr Json :=
  let entries : Except HErr (List UnspentEntry) :=
    match client.find sh with
    | some st => .ok (rpc.tracker.getUnspent st)
    | none => (rpc.new_status sh).map rpc.tracker.getUnspent
  entries.map fun es => .bool (es.any fun u => u.txHash == txid)

/-- Model of `Rpc::scripthash_unsubscribe`: remove the key, report whether it was
present. -/
def Rpc.scripthash_unsubscribe (client : Client) (sh : ScriptHash) :
    Client × Except HErr Json :=
  let removed := (client.find sh).isSome
  ({ client with scripthashes := removeSH sh client.scripthashes }, .ok (.bool removed))

/-- The iteration of `Rpc::scripthashes_subscribe` over the requested hashes:
`client` is the evolving client, `remaining` the keys still present in the
`results` map of freshly built statuses.  An occupied entry yields its stored
status hash; a vacant entry takes the built status out of `results`
(`remove(..).expect("missing scripthash status")` — `none` models that
`expect` panicking when the key is absent, which happens when a failing hash
occurs twice). -/
def subGo (rpc : Rpc) : Client → List ScriptHash → List ScriptHash →
    Option (Client × List (Except HErr Json))
  | client, _, [] => some (client, [])
  | client, remaining, sh :: rest =>
    match client.find sh with
    | some st =>
      (subGo rpc client remaining rest).map fun (c, rs) =>
        (c, .ok (statusJson st.statushash) :: rs)
    | none =>
      if sh ∈ remaining then
        match rpc.new_status sh with
        | .error e =>
          (subGo rpc client (remaining.erase sh) rest).map fun (c, rs) =>
            (c, .error e :: rs)
        | .ok st =>
          (subGo rpc (client.insert sh st) (remaining.erase sh) rest).map fun (c, rs) =>
            (c, .ok (statusJson st.statushash) :: rs)
      else none

/-- Key deduplication: collecting `(key, value)` pairs into a `HashMap`
keeps one entry per distinct key. -/
def dedupKeys : List ScriptHash → List ScriptHash
  | [] => []
  | sh :: rest =>
    let r := dedupKeys rest
    if sh ∈ r then r else sh :: r

/-- Model of `Rpc::scripthashes_subscribe`: build statuses for the hashes not yet
subscribed (the `results` map keeps one entry per distinct hash; the builds
themselves are deterministic functions of the tracker model), then walk the
inputs in order. -/
def Rpc.scripthashes_subscribe (rpc : Rpc) (client : Client) (shs : List ScriptHash) :
    Option (Client × List (Except HErr Json)) :=
  let newShs := dedupKeys (shs.filter fun sh => (client.find sh).isNone)
  subGo rpc client newShs shs

/-- Model of `Rpc::scripthash_subscribe`: the batched form with one element;
`next().unwrap()` panics when the iterator is empty. -/
def Rpc.scripthash_subscribe (rpc : Rpc) (client : Client) (sh : ScriptHash) :
    Option (Client × Except HErr Json) :=
  (rpc.scripthashes_subscribe client [sh]).bind fun (c, rs) =>
    match rs with
    | r :: _ => some (c, r)
    | [] => none

/-- Decode a hex string to bytes (`Vec::from_hex`). -/
def hexPair? : List Char → Option (List Nat)
  | [] => some []
  | [_] => none
  | a :: b :: rest =>
    match a.toNat, b.toNat with
    | x, y =>
      let dig := fun (m : Nat) =>
        if 48 ≤ m ∧ m ≤ 57 then some (m - 48)
        else if 97 ≤ m ∧ m ≤ 102 then some (m - 87)
        else if 65 ≤ m ∧ m ≤ 70 then some (m - 55)
        else none
      match dig x, dig y with
      | some hx, some lx => (hexPair? rest).map fun bs => (hx * 16 + lx) :: bs
      | _, _ => none

/-- Model of `Rpc::transaction_broadcast`. -/
def Rpc.transaction_broadcast (rpc : Rpc) (txHex : String) : Except HErr Json :=
  match hexPair? txHex.data with
  | none => .error (.bad "non-hex transaction")
  | some bytes =>
    match rpc.deserializeTx bytes with
    | none => .error (.bad "invalid transaction")
    | some tx => rpc.daemon.broadcast tx

/-- Model of `Rpc::transaction_get`. -/
def Rpc.transaction_get (rpc : Rpc) (txid : Txid) (verbose : Bool) : Except HErr Json :=
  if verbose then
    (rpc.tracker.lookupTransaction txid).bind fun o =>
      rpc.daemon.getTransactionInfo txid (o.map Prod.fst)
  else
    match rpc.cache.getTx txid with
    | some hex => .ok (.str hex)
    | none =>
      (rpc.tracker.lookupTransaction txid).bind fun o =>
        match o with
        | some (_, tx) => .ok (.str (rpc.serializeTxHex tx))
        | none => rpc.daemon.getTransactionHex txid

/-- Model of `Rpc::transaction_get_merkle`. -/
def Rpc.transaction_get_merkle (rpc : Rpc) (txid : Txid) (height : Nat) : Except HErr Json :=
  match rpc.tracker.chain.getBlockHash height with
  | none => .error (.bad ("missing block at " ++ toString height))
  | some blockhash =>
    (rpc.daemon.getBlockTxids blockhash).bind fun txids =>
      match txids.findIdx? (· == txid) with
      | none => .error (.bad ("missing txid " ++ hex64 txid ++ " in block " ++ blockhash))
      | some pos =>
        let pr := rpc.proofCreate txids pos
        .ok (.obj [("block_height", .num height),
                   ("merkle", .arr (pr.2.map Json.str)),
                   ("pos", .num pr.1)])

/-- Model of `Rpc::transaction_from_pos`. -/
def Rpc.transaction_from_pos (rpc : Rpc) (height txPos : Nat) (merkle : Bool) : Except HErr Json :=
  match rpc.tracker.chain.getBlockHash height with
  | none => .error (.bad ("missing block at " ++ toString height))
  | some blockhash =>
    (rpc.daemon.getBlockTxids blockhash).bind fun txids =>
      if txids.length ≤ txPos then
        .error (.bad ("invalid tx_pos " ++ toString txPos ++ " in block at height " ++ toString height))
      else
        let txid := txids.getD txPos 0
        if merkle then
          let pr := rpc.proofCreate txids txPos
          .ok (.obj [("merkle", .arr (pr.2.map Json.str)), ("tx_id", .str (hex64 txid))])
        else .ok (.obj [("tx_id", .str (hex64 txid))])

/-- Model of `Rpc::get_fee_histogram`. -/
def Rpc.get_fee_histogram (rpc : Rpc) : Except HErr Json :=
  .ok rpc.tracker.feesHistogram

/-! ## Dispatch -/

/-- The handler dispatch of `Rpc::single_call` (the big `match` on
`call.params`), producing the possibly-updated client and the handler
result; `none` models a handler panic. -/
def dispatch (rpc : Rpc) (client : Client) : Params →
    Option (Client × Except HErr Json)
  | .banner => some (client, .ok (.str rpc.banner))
  | .blockHeader h => some (client, rpc.block_header h)
  | .blockHeaders s c => some (client, rpc.block_headers s c)
  | .donation => some (client, .ok .null)
  | .estimateFee n => some (client, rpc.estimate_fee n)
  | .features => some (client, rpc.features)
  | .headersSubscribe => rpc.headers_subscribe client
  | .mempoolFeeHistogram => some (client, rpc.get_fee_histogram)
  | .peersSubscribe => some (client, .ok (.arr []))
  | .ping => some (client, .ok .null)
  | .relayFee => some (client, rpc.relayfee)
  | .scriptHashGetBalance sh => some (client, rpc.scripthash_get_balance client sh)
  | .scriptHashGetHistory sh => some (client, rpc.scripthash_get_history client sh)
  | .scriptHashGetHistoryFilter sh fro upto =>
    some (client, rpc.scripthash_get_history_filter client sh fro upto)
  | .scriptHashListUnspent sh => some (client, rpc.scripthash_list_unspent client sh)
  | .scriptHashSelectUnspent sh amounts minA conf =>
    (rpc.scripthash_select_unspent client sh amounts minA conf).map fun r => (client, r)
  | .scriptHashUnspentExist sh txid =>
    some (client, rpc.scripthash_unspent_is_exist client sh txid)
  | .scriptHashSubscribe sh => rpc.scripthash_subscribe client sh
  | .scriptHashUnsubscribe sh => some (Rpc.scripthash_unsubscribe client sh)
  | .transactionBroadcast txHex => some (client, rpc.transaction_broadcast txHex)
  | .transactionGet args => some (client, rpc.transaction_get args.txid args.verbose)
  | .transactionGetMerkle txid h => some (client, rpc.transaction_get_merkle txid h)
  | .transactionFromPosition h p m => some (client, rpc.transaction_from_pos h p m)
  | .version cid v => some (client, rpc.version cid v)

/-- Model of `Rpc::single_call`: a failed per-call parse already carries its response;
otherwise apply the readiness gate, then dispatch and wrap the result. -/
def single_call (rpc : Rpc) (client : Client) : Except Json Call → Option (Client × Json)
  | .error resp => some (client, resp)
  | .ok call =>
    if !rpc.tracker.statusOk && !call.params.allowedNotReady then
      some (client, error_msg call.id RpcError.unavailableIndex)
    else
      (dispatch rpc client call.params).map fun (c, r) => (c, call.response r)

/-- The script-hash extraction of `Rpc::try_multi_call`: every call must be
`blockchain.scripthash.subscribe`, otherwise the fast path does not apply. -/
def collectSubHashes : List Call → Option (List ScriptHash)
  | [] => some []
  | c :: rest =>
    match c.params with
    | .scriptHashSubscribe sh => (collectSubHashes rest).map (sh :: ·)
    | _ => none

/-- Model of `collect::<Option<Vec<&Call>>>()`: all per-call parses must have
succeeded. -/
def collectOk : List (Except Json Call) → Option (List Call)
  | [] => some []
  | .error _ :: _ => none
  | .ok c :: rest => (collectOk rest).map (c :: ·)

/-- Build the per-call responses of the multi-call fast path. -/
def zipResponses (rs : List (Except HErr Json)) (calls : List Call) : List Json :=
  (rs.zip calls).map fun (r, c) => c.response r

/-- Model of `Rpc::try_multi_call`: the outer `none` means the fast path does not
apply (some call failed to parse, or is not a subscribe); the inner `none`
models a panic inside the batched subscribe. -/
def try_multi_call (rpc : Rpc) (client : Client) (calls : List (Except Json Call)) :
    Option (Option (Client × List Json)) :=
  match collectOk calls with
  | none => none
  | some validCalls =>
    match collectSubHashes validCalls with
    | none => none
    | some shs =>
      some ((rpc.scripthashes_subscribe client shs).map fun (c, rs) =>
        (c, zipResponses rs validCalls))

/-- The one-by-one execution of a batch through `Rpc::single_call`,
threading the client state. -/
def singleCalls (rpc : Rpc) : Client → List (Except Json Call) → Option (Client × List Json)
  | client, [] => some (client, [])
  | client, c :: rest =>
    (single_call rpc client c).bind fun (c1, v) =>
      (singleCalls rpc c1 rest).map fun (c2, vs) => (c2, v :: vs)

/-- Parsed frame (`Calls` in the source). -/
inductive Calls where
  | batch (cs : List (Except Json Call))
  | single (c : Except Json Call)

/-- Model of `Rpc::handle_calls`. -/
def handle_calls (rpc : Rpc) (client : Client) : Except Json Calls → Option (Client × Json)
  | .error resp => some (client, resp)
  | .ok (.single c) => single_call rpc client c
  | .ok (.batch batch) =>
    match try_multi_call rpc client batch with
    | some res => res.map fun (c, rs) => (c, .arr rs)
    | none =>
      (singleCalls rpc client batch).map fun (c, rs) => (c, .arr rs)

/-! ## Wire parsing -/

/-- A parsed wire request (`Request` in the source): `id` is any JSON value,
`params` defaults to `Value::Null` (the `#[serde(default)]` default of
`serde_json::Value`) when absent. -/
structure Request where
  id : Json
  method : String
  params : Json

/-- Shape `Requests` of the source: serde's untagged single-or-batch shape. -/
inductive Requests where
  | single (r : Request)
  | batch (rs : List Request)

/-- serde's derived deserialisation of one `Request` from a JSON value:
either a map with members `id` (required), `method` (required string) and
`params` (optional), or a sequence `[id, method]` / `[id, method, params]`
(serde derive accepts a sequence for a struct). -/
def parseRequest : Json → Option Request
  | .obj kvs =>
    match lookupKey "id" kvs, lookupKey "method" kvs with
    | some i, some (.str m) => some ⟨i, m, (lookupKey "params" kvs).getD .null⟩
    | _, _ => none
  | .arr [i, .str m] => some ⟨i, m, .null⟩
  | .arr [i, .str m, p] => some ⟨i, m, p⟩
  | _ => none

/-- All elements of a batch must parse (`Vec<Request>` fails as a whole
otherwise). -/
def parseRequestList : List Json → Option (List Request)
  | [] => some []
  | j :: rest => (parseRequest j).bind fun r => (parseRequestList rest).map (r :: ·)

/-- Model of `parse_requests`: stage 1 is JSON parsing (already applied by the
transport model, `Except.error ()` marking a malformed line), stage 2 the
untagged `Requests` shape (`Single` is tried before `Batch`). -/
def parse_requests : Except Unit Json → Except StandardError Requests
  | .error _ => .error .parseError
  | .ok j =>
    match parseRequest j with
    | some r => .ok (.single r)
    | none =>
      match j with
      | .arr es =>
        match parseRequestList es with
        | some rs => .ok (.batch rs)
        | none => .error .invalidRequest
      | _ => .error .invalidRequest

/-- serde decoding of an unsigned integer bounded by `2 ^ bits`. -/
def decodeUInt (bits : Nat) : Json → Option Nat
  | .num n => if 0 ≤ n ∧ n < (2 : Int) ^ bits then some n.toNat else none
  | _ => none

/-- Decode one hex character. -/
def hexVal? (c : Char) : Option Nat :=
  let m := c.toNat
  if 48 ≤ m ∧ m ≤ 57 then some (m - 48)
  else if 97 ≤ m ∧ m ≤ 102 then some (m - 87)
  else if 65 ≤ m ∧ m ≤ 70 then some (m - 55)
  else none

def hexChars? : List Char → Option Nat
  | [] => some 0
  | c :: rest =>
    (hexVal? c).bind fun d => (hexChars? rest).map fun acc => acc * 16 + d

/-- A 32-byte digest from its 64-character hex form (`FromHex`); script
hashes and txids are decoded this way.  The numeric value is digit-reversed
relative to reading order, which is irrelevant for an opaque
compared-by-value digest. -/
def decodeHash : Json → Option Nat
  | .str s => if s.length = 64 then hexChars? s.data else none
  | _ => none

def decodeOptUsize : Json → Option (Option Nat)
  | .null => some none
  | j => (decodeUInt 64 j).map some

def decodeBool : Json → Option Bool
  | .bool b => some b
  | _ => none

def decodeAmounts : List Json → Option (List Nat)
  | [] => some []
  | j :: rest => (decodeUInt 64 j).bind fun n => (decodeAmounts rest).map (n :: ·)

/-- Model of `Params::parse` plus the `convert` calls: the serde decoding of each
parameter tuple from the `params` JSON value, per the spec's method table. -/
def Params.parse (method : String) (params : Json) : Except StandardError Params :=
  let inv : Except StandardError Params := .error .invalidParams
  if method = "blockchain.block.header" then
    match params with
    | .arr [h] => match decodeUInt 64 h with
                  | some n => .ok (.blockHeader n)
                  | none => inv
    | _ => inv
  else if method = "blockchain.block.headers" then
    match params with
    | .arr [s, c] =>
      match decodeUInt 64 s, decodeUInt 64 c with
      | some a, some b => .ok (.blockHeaders a b)
      | _, _ => inv
    | _ => inv
  else if method = "blockchain.estimatefee" then
    match params with
    | .arr [n] => match decodeUInt 16 n with
                  | some m => .ok (.estimateFee m)
                  | none => inv
    | _ => inv
  else if method = "blockchain.headers.subscribe" then .ok .headersSubscribe
  else if method = "blockchain.relayfee" then .ok .relayFee
  else if method = "blockchain.scripthash.get_balance" then
    match params with
    | .arr [sh] => match decodeHash sh with
                   | some h => .ok (.scriptHashGetBalance h)
                   | none => inv
    | _ => inv
  else if method = "blockchain.scripthash.get_history" then
    match params with
    | .arr [sh] => match decodeHash sh with
                   | some h => .ok (.scriptHashGetHistory h)
                   | none => inv
    | _ => inv
  else if method = "blockchain.scripthash.get_history_filter" then
    match params with
    | .arr [sh, f, t] =>
      match decodeHash sh, decodeOptUsize f, decodeOptUsize t with
      | some h, some fo, some uo => .ok (.scriptHashGetHistoryFilter h fo uo)
      | _, _, _ => inv
    | _ => inv
  else if method = "blockchain.scripthash.listunspent" then
    match params with
    | .arr [sh] => match decodeHash sh with
                   | some h => .ok (.scriptHashListUnspent h)
                   | none => inv
    | _ => inv
  else if method = "blockchain.scripthash.unspent_exist" then
    match params with
    | .arr [sh, t] =>
      match decodeHash sh, decodeHash t with
      | some h, some tx => .ok (.scriptHashUnspentExist h tx)
      | _, _ => inv
    | _ => inv
  else if method = "blockchain.scripthash.select_unspent" then
    match params with
    | .arr [sh, .arr amts, mn, cf] =>
      match decodeHash sh, decodeAmounts amts, decodeUInt 64 mn, decodeBool cf with
      | some h, some as1, some m, some b => .ok (.scriptHashSelectUnspent h as1 m b)
      | _, _, _, _ => inv
    | _ => inv
  else if method = "blockchain.scripthash.subscribe" then
    match params with
    | .arr [sh] => match decodeHash sh with
                   | some h => .ok (.scriptHashSubscribe h)
                   | none => inv
    | _ => inv
  else if method = "blockchain.scripthash.unsubscribe" then
    match params with
    | .arr [sh] => match decodeHash sh with
                   | some h => .ok (.scriptHashUnsubscribe h)
                   | none => inv
    | _ => inv
  else if method = "blockchain.transaction.broadcast" then
    match params with
    | .arr [.str hx] => .ok (.transactionBroadcast hx)
    | _ => inv
  else if method = "blockchain.transaction.get" then
    match params with
    | .arr [t] => match decodeHash t with
                  | some tx => .ok (.transactionGet ⟨tx, false⟩)
                  | none => inv
    | .arr [t, v] =>
      match decodeHash t, decodeBool v with
      | some tx, some b => .ok (.transactionGet ⟨tx, b⟩)
      | _, _ => inv
    | _ => inv
  else if method = "blockchain.transaction.get_merkle" then
    match params with
    | .arr [t, h] =>
      match decodeHash t, decodeUInt 64 h with
      | some tx, some n => .ok (.transactionGetMerkle tx n)
      | _, _ => inv
    | _ => inv
  else if method = "blockchain.transaction.id_from_pos" then
    match params with
    | .arr [h, p, m] =>
      match decodeUInt 64 h, decodeUInt 64 p, decodeBool m with
      | some a, some b, some c => .ok (.transactionFromPosition a b c)
      | _, _, _ => inv
    | _ => inv
  else if method = "mempool.get_fee_histogram" then .ok .mempoolFeeHistogram
  else if method = "server.banner" then .ok .banner
  else if method = "server.donation_address" then .ok .donation
  else if method = "server.features" then .ok .features
  else if method = "server.peers.subscribe" then .ok .peersSubscribe
  else if method = "server.ping" then .ok .ping
  else if method = "server.version" then
    match params with
    | .arr [.str cid, .str v] => .ok (.version cid (.single v))
    | .arr [.str cid, .arr [.str lo, .str hi]] => .ok (.version cid (.range lo hi))
    | _ => inv
  else .error .methodNotFound

/-- Model of `Call::parse`: a parameter-parse failure becomes an error response that
keeps the request id. -/
def Call.parse (r : Request) : Except Json Call :=
  match Params.parse r.method r.params with
  | .ok p => .ok ⟨r.id, r.method, p⟩
  | .error e => .error (error_msg r.id (.standard e))

/-- Model of `Calls::parse`. -/
def Calls.parse : Requests → Calls
  | .single r => .single (Call.parse r)
  | .batch rs => .batch (rs.map Call.parse)

/-- One input line through parsing and `handle_calls`. -/
def handleLine (rpc : Rpc) (client : Client) (line : Except Unit Json) :
    Option (Client × Json) :=
  handle_calls rpc client
    (match parse_requests line with
     | .ok reqs => .ok (Calls.parse reqs)
     | .error e => .error (error_msg_no_id e))

/-- Model of `Rpc::handle_requests`: one output line per input line, each the
serialisation of the line's response value. -/
def handle_requests (rpc : Rpc) : Client → List (Except Unit Json) →
    Option (Client × List String)
  | client, [] => some (client, [])
  | client, line :: rest =>
    (handleLine rpc client line).bind fun (c1, v) =>
      (handle_requests rpc c1 rest).map fun (c2, outs) => (c2, v.toStr :: outs)

/-! ## Derived notions used in the theorem statements -/

/-- The elements of a JSON array (empty for non-arrays). -/
def Json.elems : Json → List Json
  | .arr xs => xs
  | _ => []

/-- Whether a JSON value is an array. -/
def Json.isArr : Json → Bool
  | .arr _ => true
  | _ => false

/-- The response one `subscribe(sh)` produces against a given client state:
the stored status hash when `sh` is already subscribed, otherwise the result
of building a fresh status.  (The value `scripthashes_subscribe` returns at
each position, characterised in the theorems below.) -/
def expectedSub (rpc : Rpc) (client : Client) (sh : ScriptHash) : Except HErr Json :=
  match client.find sh with
  | some st => .ok (statusJson st.statushash)
  | none => (rpc.new_status sh).map fun st => statusJson st.statushash

/-- The client state after one `subscribe(sh)`: unchanged when occupied or
when the status build fails, extended otherwise. -/
def stepClient (rpc : Rpc) (client : Client) (sh : ScriptHash) : Client :=
  match client.find sh with
  | some _ => client
  | none =>
    match rpc.new_status sh with
    | .ok st => client.insert sh st
    | .error _ => client

/-- Whether a handler result is a success. -/
def exOk : Except HErr Json → Bool
  | .ok _ => true
  | .error _ => false

/-- Number of occurrences of a script-hash in a list. -/
def occs (a : ScriptHash) : List ScriptHash → Nat
  | [] => 0
  | b :: l => (if b = a then 1 else 0) + occs a l

/-- Number of calls in a list that are `subscribe(sh)`. -/
def occsSub (sh : ScriptHash) : List Call → Nat
  | [] => 0
  | c :: l => (if c.params = .scriptHashSubscribe sh then 1 else 0) + occsSub sh l

/-- The six read-only script-hash query methods. -/
def Params.readOnlyQuery : Params → Bool
  | .scriptHashGetBalance _ => true
  | .scriptHashGetHistory _ => true
  | .scriptHashGetHistoryFilter _ _ _ => true
  | .scriptHashListUnspent _ => true
  | .scriptHashSelectUnspent _ _ _ _ => true
  | .scriptHashUnspentExist _ _ => true
  | _ => false

/-! ## Concrete model instances used by counterexamples and witnesses -/

def chain0 : ChainModel :=
  { tip := "00" , height := 0, getBlockHeader := fun _ => none, getBlockHash := fun _ => none }

/-- A ready tracker whose status builds always succeed (fresh statuses stay
empty). -/
def tracker0 : TrackerModel :=
  { statusOk := true
    chain := chain0
    update_scripthash_status := fun st => .ok st
    getBalance := fun _ => .null
    getUnspent := fun _ => []
    feesHistogram := .arr []
    lookupTransaction := fun _ => .ok none }

def daemon0 : DaemonModel :=
  { estimateFee := fun _ => .ok none
    getRelayFee := .ok .null
    broadcast := fun _ => .ok .null
    getBlockTxids := fun _ => .ok []
    getTransactionInfo := fun _ _ => .ok .null
    getTransactionHex := fun _ => .ok .null }

def rpc0 : Rpc :=
  { tracker := tracker0
    daemon := daemon0
    cache := { getTx := fun _ => none }
    banner := "welcome"
    port := 50001
    electrsVersion := "0.8.10"
    deserializeTx := fun _ => none
    serializeTxHex := fun t => t
    proofCreate := fun _ p => (p, []) }

/-- Variant of `rpc0` with the tracker reporting not-ready. -/
def rpcNR : Rpc := { rpc0 with tracker := { tracker0 with statusOk := false } }

/-- Variant of `rpc0` with status builds failing. -/
def rpcFail : Rpc :=
  { rpc0 with tracker :=
    { tracker0 with update_scripthash_status := fun _ => .error (.bad "status build failed") } }

/-- A one-sat confirmed unspent entry. -/
def entryOne : UnspentEntry := ⟨1, 0, 1, 1⟩

/-- Variant of `rpc0` with four one-sat unspent entries on every status. -/
def rpcSel : Rpc :=
  { rpc0 with tracker :=
    { tracker0 with getUnspent := fun _ => [entryOne, entryOne, entryOne, entryOne] } }

/-- A client subscribed to script-hash 7. -/
def clientSel : Client := ⟨none, [(7, ⟨7, some "aa", []⟩)]⟩

/-- A parsed `blockchain.scripthash.subscribe` call with id 7 for
script-hash 5. -/
def subCall7 : Call := ⟨.num 7, "blockchain.scripthash.subscribe", .scriptHashSubscribe 5⟩

/-- A parsed `server.banner` call with id 2. -/
def bannerCall : Call := ⟨.num 2, "server.banner", .banner⟩

/-- A parsed `blockchain.scripthash.get_balance` call with id 1 for
script-hash 3. -/
def gbCall : Call := ⟨.num 1, "blockchain.scripthash.get_balance", .scriptHashGetBalance 3⟩

/-- The client state after `rpc0` subscribes script-hash 5 into an empty
client. -/
def cA : Client := Client.insert {} 5 (ScriptHashStatus.new 5)

/-! # Theorems -/

/-- Value of `Client.find` after an insertion. -/
theorem Client.find_insert (c : Client) (sh sh2 : ScriptHash) (st : ScriptHashStatus) :
    (c.insert sh st).find sh2 = if sh = sh2 then some st else c.find sh2 := rfl

/-- C2 (code bug): `blockchain.scripthash.select_unspent` panics on a
subscribed script-hash holding four one-sat unspent entries when asked for a
single target of 100 sats with `min_amount = 0`, `confirmed = false`: no
entry reaches the target, the greedy loop `for i in 0..=max_len` runs to
`i = utxo_len` and `utxo_len - 1 - i` underflows (`none` models the panic).
The claim — and the spec's "handlers never panic on untrusted input" — state
the intended behaviour; the source itself flags this loop bound as a slip
(spec section 9). -/
theorem C2_select_unspent_panics :
    Rpc.scripthash_select_unspent rpcSel clientSel 7 [100] 0 false = none ∧
    select_utxos [entryOne, entryOne, entryOne, entryOne] 100 = none :=
  ⟨rfl, rfl⟩

/-- C5 (amended): the input line `"[]"` deserialises as an *empty batch*
(serde's untagged `Requests::Batch`), flows through the multi-call fast path
with zero calls, and produces the output line `"[]"` — an empty response
array, not the `-32600` "invalid request" error the claim states.  No
handler executes. -/
theorem C5_empty_batch_response : ∀ (rpc : Rpc) (client : Client),
    handle_requests rpc client [.ok (.arr [])] = some (client, ["[]"]) :=
  fun _ _ => rfl

/-- C5 counterexample: on the line `"[]"` the dispatcher emits `"[]"`, which
is not the claimed `-32600` "invalid request" response line. -/
theorem C5_counterexample :
    handle_requests rpc0 {} [.ok (.arr [])] = some ({}, ["[]"]) ∧
    "[]" ≠ (error_msg_no_id .invalidRequest).toStr :=
  ⟨rfl, by decide⟩

/-- C4 (amended): `server.version` succeeds exactly when the proposed
protocol version is the *single string* `"1.4"`, returning
`["electrs/<version>", "1.4"]`; every other argument — including every
`[min,max]` range, even `["1.4","1.4"]` — fails, and the failure maps to
error code 1. -/
theorem C4_version_single_only : ∀ (rpc : Rpc) (cid : String) (v : VersionArg),
    (rpc.version cid v = .ok (.arr [.str rpc.server_id, .str "1.4"]) ↔ v = .single "1.4") ∧
    (v ≠ .single "1.4" →
      ∀ i mth, errorCode (Call.response ⟨i, mth, .version cid v⟩ (rpc.version cid v)) = some 1) := by
  intro rpc cid v
  constructor
  · constructor
    · intro h
      cases v with
      | single s =>
        by_cases hs : s = "1.4"
        · rw [hs]
        · rw [Rpc.version, if_neg hs] at h
          cases h
      | range lo hi =>
        rw [Rpc.version] at h
        cases h
    · rintro rfl
      rfl
  · intro hne i mth
    cases v with
    | single s =>
      have hs : ¬ s = "1.4" := fun h => hne (by rw [h])
      simp only [Rpc.version, if_neg hs]
      rfl
    | range lo hi =>
      rfl

/-- C4 counterexample: the range `["1.4","1.4"]`, whose negotiated value is
1.4, is rejected by `Rpc::version` instead of succeeding. -/
theorem C4_counterexample :
    (rpc0.version "wallet" (.range "1.4" "1.4")).isOk = false ∧
    rpc0.version "wallet" (.range "1.4" "1.4") =
      .error (.bad ("wallet requested Range(\"1.4\", \"1.4\"), server supports 1.4")) :=
  ⟨rfl, rfl⟩

/-- C4 witness: instantiating the amended theorem at a rejected range and at
the accepted single string. -/
theorem C4_witness :
    errorCode (Call.response ⟨.num 3, "server.version", .version "wallet" (.range "1.0" "2.0")⟩
      (rpc0.version "wallet" (.range "1.0" "2.0"))) = some 1 ∧
    rpc0.version "wallet" (.single "1.4") = .ok (.arr [.str rpc0.server_id, .str "1.4"]) :=
  ⟨(C4_version_single_only rpc0 "wallet" (.range "1.0" "2.0")).2 (by decide) (.num 3) "server.version",
   (C4_version_single_only rpc0 "wallet" (.single "1.4")).1.mpr rfl⟩

/-- C1 (amended): while the tracker reports not-ready, every successfully
parsed call dispatched through the single-call path whose method is outside
the allowlist `{blockchain.block.header, blockchain.block.headers,
blockchain.headers.subscribe, server.version}` receives an error response
with code `-32603` carrying the original request id, and the client state is
untouched.  (A batch consisting solely of `blockchain.scripthash.subscribe`
calls does *not* go through this path: the multi-call fast path bypasses the
gate — see the counterexample.) -/
theorem C1_gate_single_call : ∀ (rpc : Rpc) (client : Client) (call : Call),
    rpc.tracker.statusOk = false →
    call.params.allowedNotReady = false →
    single_call rpc client (.ok call) = some (client, error_msg call.id .unavailableIndex) ∧
    errorCode (error_msg call.id .unavailableIndex) = some (-32603) ∧
    idOf (error_msg call.id .unavailableIndex) = some call.id := by
  intro rpc client call h1 h2
  refine ⟨?_, rfl, rfl⟩
  simp [single_call, h1, h2]

/-- C1 counterexample: with the tracker not ready, a batch consisting solely
of one `blockchain.scripthash.subscribe` request is answered through the
multi-call fast path with a *success* response (no error member at all)
instead of the claimed `-32603` error. -/
theorem C1_counterexample :
    rpcNR.tracker.statusOk = false ∧
    handle_calls rpcNR {} (.ok (.batch [.ok subCall7])) =
      some (⟨none, [(5, ScriptHashStatus.new 5)]⟩, .arr [result_msg (.num 7) .null]) ∧
    errorCode (result_msg (.num 7) .null) = none :=
  ⟨rfl, rfl, rfl⟩

/-- C1 witness: the gate theorem applied to a `server.banner` call with id 2
against the not-ready model. -/
theorem C1_witness :
    single_call rpcNR {} (.ok bannerCall) =
      some ({}, error_msg (.num 2) .unavailableIndex) :=
  (C1_gate_single_call rpcNR {} bannerCall rfl rfl).1

/-- A read-only query handler never changes the client passed to
`dispatch`. -/
theorem dispatch_readOnly (rpc : Rpc) (client : Client) (p : Params)
    (hro : p.readOnlyQuery = true) (c2 : Client) (r : Except HErr Json)
    (hd : dispatch rpc client p = some (c2, r)) : c2 = client := by
  cases p <;> simp [Params.readOnlyQuery] at hro <;> simp [dispatch] at hd
  case scriptHashGetBalance sh => exact hd.1.symm
  case scriptHashGetHistory sh => exact hd.1.symm
  case scriptHashGetHistoryFilter sh fro upto => exact hd.1.symm
  case scriptHashListUnspent sh => exact hd.1.symm
  case scriptHashSelectUnspent sh amounts mn cf =>
    exact hd.2.symm
  case scriptHashUnspentExist sh txid => exact hd.1.symm

/-- C9: every read-only script-hash query (`get_balance`, `get_history`,
`get_history_filter`, `listunspent`, `select_unspent`, `unspent_exist`)
leaves the client state — the scripthash map and the tip — unchanged when it
returns; in particular a fresh status built for an unsubscribed script-hash
is discarded, never inserted. -/
theorem C9_read_only_frame : ∀ (rpc : Rpc) (client : Client) (call : Call)
    (c2 : Client) (v : Json),
    call.params.readOnlyQuery = true →
    single_call rpc client (.ok call) = some (c2, v) →
    c2 = client := by
  intro rpc client call c2 v hro h
  rw [single_call] at h
  split at h
  · simp only [Option.some.injEq, Prod.mk.injEq] at h
    exact h.1.symm
  · rcases Option.map_eq_some'.mp h with ⟨⟨c, r⟩, hd, he⟩
    simp only [Prod.mk.injEq] at he
    rw [← he.1]
    exact dispatch_readOnly rpc client call.params hro c r hd

/-- C9 witness: a `get_balance` query on an unsubscribed hash against the
ready model returns with the client unchanged. -/
theorem C9_witness : ({} : Client) = {} :=
  C9_read_only_frame rpc0 {} gbCall {} (result_msg (.num 1) .null) rfl rfl

/-- C10: `blockchain.scripthash.unspent_exist(sh, txid)` returns true iff
some current unspent entry of `sh` has `tx_hash = txid`; the result is a
function of the entries' `tx_hash` projection alone, so the output index
(`vout`) is never examined.  Stated for the subscribed case and — last
conjunct — for the unsubscribed case built from a fresh status. -/
theorem C10_unspent_exist : ∀ (rpc : Rpc) (client : Client) (sh : ScriptHash)
    (txid : Txid) (st : ScriptHashStatus),
    client.find sh = some st →
    (rpc.scripthash_unspent_is_exist client sh txid =
      .ok (.bool ((rpc.tracker.getUnspent st).any fun u => u.txHash == txid)) ∧
    (((rpc.tracker.getUnspent st).any fun u => u.txHash == txid) = true ↔
      ∃ u ∈ rpc.tracker.getUnspent st, u.txHash = txid) ∧
    (∀ es2 : List UnspentEntry,
      es2.map UnspentEntry.txHash = (rpc.tracker.getUnspent st).map UnspentEntry.txHash →
      (es2.any fun u => u.txHash == txid) =
        ((rpc.tracker.getUnspent st).any fun u => u.txHash == txid)) ∧
    (∀ (client2 : Client) (st2 : ScriptHashStatus), client2.find sh = none →
      rpc.new_status sh = .ok st2 →
      rpc.scripthash_unspent_is_exist client2 sh txid =
        .ok (.bool ((rpc.tracker.getUnspent st2).any fun u => u.txHash == txid)))) := by
  intro rpc client sh txid st hf
  have hfactor : ∀ (l : List UnspentEntry),
      (l.any fun u => u.txHash == txid) = (l.map UnspentEntry.txHash).any (· == txid) := by
    intro l
    induction l with
    | nil => rfl
    | cons a t ih => simp [List.any_cons, ih]
  refine ⟨?_, ?_, ?_, ?_⟩
  · rw [Rpc.scripthash_unspent_is_exist, hf]
    rfl
  · simp [List.any_eq_true]
  · intro es2 h
    rw [hfactor, hfactor, h]
  · intro client2 st2 hn hok
    rw [Rpc.scripthash_unspent_is_exist, hn, hok]
    rfl

/-- C10 witness: against a status holding four entries for transaction 1,
the handler reports existence of txid 1. -/
theorem C10_witness :
    rpcSel.scripthash_unspent_is_exist clientSel 7 1 = .ok (.bool true) :=
  (C10_unspent_exist rpcSel clientSel 7 1 ⟨7, some "aa", []⟩ rfl).1

/-- Evaluation of `scripthash_subscribe`: it returns the stepped client and the
expected per-hash response, and never panics. -/
theorem scripthash_subscribe_eq (rpc : Rpc) (client : Client) (sh : ScriptHash) :
    rpc.scripthash_subscribe client sh =
      some (stepClient rpc client sh, expectedSub rpc client sh) := by
  rw [Rpc.scripthash_subscribe, Rpc.scripthashes_subscribe]
  cases hf : client.find sh with
  | some st =>
    simp [hf, subGo, stepClient, expectedSub, dedupKeys]
  | none =>
    cases hn : rpc.new_status sh with
    | ok st => simp [hf, hn, subGo, stepClient, expectedSub, dedupKeys, Except.map]
    | error e => simp [hf, hn, subGo, stepClient, expectedSub, dedupKeys, Except.map]

/-- One subscribe step leaves the expected response of every hash
unchanged. -/
theorem expectedSub_stepClient (rpc : Rpc) (client : Client) (sh1 sh : ScriptHash) :
    expectedSub rpc (stepClient rpc client sh1) sh = expectedSub rpc client sh := by
  unfold stepClient
  cases hf1 : client.find sh1 with
  | some st1 => rfl
  | none =>
    cases hn1 : rpc.new_status sh1 with
    | error e => rfl
    | ok st1 =>
      unfold expectedSub
      rw [Client.find_insert]
      by_cases he : sh1 = sh
      · subst he
        rw [if_pos rfl, hf1, hn1]
        rfl
      · rw [if_neg he]

/-- Subscribing the same hash twice steps the client only once. -/
theorem stepClient_stepClient (rpc : Rpc) (client : Client) (sh : ScriptHash) :
    stepClient rpc (stepClient rpc client sh) sh = stepClient rpc client sh := by
  unfold stepClient
  cases hf : client.find sh with
  | some st => simp [hf]
  | none =>
    cases hn : rpc.new_status sh with
    | error e => simp [hf, hn]
    | ok st => simp [hf, hn, Client.find_insert]

/-- C7: for every client and script-hash, calling
`blockchain.scripthash.subscribe` twice without intervening unsubscribe or
status update returns the same result both times (in particular the same
status hash) and the second call leaves the client — hence the size of its
scripthash map — unchanged. -/
theorem C7_idempotent_subscribe : ∀ (rpc : Rpc) (client : Client) (sh : ScriptHash)
    (c1 c2 : Client) (r1 r2 : Except HErr Json),
    rpc.scripthash_subscribe client sh = some (c1, r1) →
    rpc.scripthash_subscribe c1 sh = some (c2, r2) →
    r2 = r1 ∧ c2 = c1 ∧ c2.scripthashes.length = c1.scripthashes.length := by
  intro rpc client sh c1 c2 r1 r2 h1 h2
  rw [scripthash_subscribe_eq] at h1 h2
  simp only [Option.some.injEq, Prod.mk.injEq] at h1 h2
  obtain ⟨hc1, hr1⟩ := h1
  obtain ⟨hc2, hr2⟩ := h2
  subst hc1
  refine ⟨?_, ?_, ?_⟩
  · rw [← hr2, ← hr1, expectedSub_stepClient]
  · rw [← hc2, stepClient_stepClient]
  · rw [← hc2, stepClient_stepClient]

/-- C7 witness: subscribing hash 5 twice on an empty client against the
ready model returns the null status hash both times and leaves the singleton
map unchanged. -/
theorem C7_witness :
    (Except.ok (statusJson none) : Except HErr Json) = .ok (statusJson none) ∧
    cA = cA ∧ cA.scripthashes.length = cA.scripthashes.length :=
  C7_idempotent_subscribe rpc0 {} 5 cA cA (.ok (statusJson none)) (.ok (statusJson none)) rfl rfl

theorem occs_cons (a b : ScriptHash) (l : List ScriptHash) :
    occs a (b :: l) = (if b = a then 1 else 0) + occs a l := rfl

theorem occs_le_cons (a b : ScriptHash) (l : List ScriptHash) :
    occs a l ≤ occs a (b :: l) := by
  rw [occs_cons]
  omega

theorem occs_pos_of_mem {a : ScriptHash} : ∀ {l : List ScriptHash}, a ∈ l → 1 ≤ occs a l := by
  intro l h
  induction l with
  | nil => cases h
  | cons b t ih =>
    rw [occs_cons]
    rcases List.mem_cons.mp h with rfl | hm
    · simp
    · have := ih hm
      omega

theorem mem_dedupKeys {a : ScriptHash} : ∀ {l : List ScriptHash}, a ∈ dedupKeys l ↔ a ∈ l := by
  intro l
  induction l with
  | nil => simp [dedupKeys]
  | cons b t ih =>
    simp only [dedupKeys]
    by_cases hb : b ∈ dedupKeys t
    · rw [if_pos hb]
      constructor
      · intro h
        exact List.mem_cons_of_mem _ (ih.mp h)
      · intro h
        rcases List.mem_cons.mp h with rfl | h
        · exact hb
        · exact ih.mpr h
    · rw [if_neg hb]
      simp [ih]

/-- The batched-subscribe walk, fully characterised: provided no failing
fresh hash occurs twice, it never panics, ends in the client obtained by
folding single subscribe steps, and answers every position with the response
`expectedSub` predicts from the state `base` at entry.  (`c` is the evolving
client, which must extend `base` only by freshly built statuses.) -/
theorem subGo_spec (rpc : Rpc) :
    ∀ (shs : List ScriptHash) (c base : Client) (remaining : List ScriptHash),
    (∀ sh st, base.find sh = some st → c.find sh = some st) →
    (∀ sh st, c.find sh = some st →
      base.find sh = some st ∨ (base.find sh = none ∧ rpc.new_status sh = .ok st)) →
    (∀ sh ∈ shs, c.find sh = none → sh ∈ remaining) →
    (∀ sh ∈ shs, c.find sh = none → (∀ st, rpc.new_status sh ≠ .ok st) → occs sh shs ≤ 1) →
    subGo rpc c remaining shs =
      some (shs.foldl (stepClient rpc) c, shs.map (expectedSub rpc base)) := by
  intro shs
  induction shs with
  | nil =>
    intro c base remaining _ _ _ _
    rfl
  | cons sh rest ih =>
    intro c base remaining hmono hinv h1 hcnt
    have hbase_of_none : c.find sh = none → base.find sh = none := by
      intro hf
      cases hb : base.find sh with
      | none => rfl
      | some st => rw [hmono sh st hb] at hf; cases hf
    cases hf : c.find sh with
    | some st =>
      have hrest := ih c base remaining hmono hinv
        (fun s hs hn => h1 s (List.mem_cons_of_mem _ hs) hn)
        (fun s hs hn hne =>
          le_trans (occs_le_cons s sh rest) (hcnt s (List.mem_cons_of_mem _ hs) hn hne))
      have hexp : expectedSub rpc base sh = .ok (statusJson st.statushash) := by
        unfold expectedSub
        rcases hinv sh st hf with hb | ⟨hb, hn⟩
        · rw [hb]
        · rw [hb, hn]
          rfl
      have hstep : stepClient rpc c sh = c := by
        unfold stepClient
        rw [hf]
      simp only [subGo, hf, hrest, Option.map_some', List.foldl_cons, List.map_cons, hstep, hexp]
    | none =>
      have hmem : sh ∈ remaining := h1 sh (List.mem_cons_self _ _) hf
      have hbase := hbase_of_none hf
      cases hn : rpc.new_status sh with
      | error e =>
        have hfail : ∀ st, rpc.new_status sh ≠ .ok st := by
          intro st hst
          rw [hn] at hst
          cases hst
        have hnotin : sh ∉ rest := by
          intro hsm
          have hb := hcnt sh (List.mem_cons_self _ _) hf hfail
          have h2 := occs_pos_of_mem hsm
          rw [occs_cons, if_pos rfl] at hb
          omega
        have hrest := ih c base (remaining.erase sh) hmono hinv
          (fun s hs hns => by
            have hne : s ≠ sh := fun heq => hnotin (heq ▸ hs)
            exact (List.mem_erase_of_ne hne).mpr (h1 s (List.mem_cons_of_mem _ hs) hns))
          (fun s hs hns hne =>
            le_trans (occs_le_cons s sh rest) (hcnt s (List.mem_cons_of_mem _ hs) hns hne))
        have hexp : expectedSub rpc base sh = .error e := by
          unfold expectedSub
          rw [hbase, hn]
          rfl
        have hstep : stepClient rpc c sh = c := by
          unfold stepClient
          rw [hf, hn]
        simp only [subGo, hf]
        rw [if_pos hmem]
        simp only [hn, hrest, Option.map_some', List.foldl_cons, List.map_cons, hstep, hexp]
      | ok st =>
        have hstep : stepClient rpc c sh = c.insert sh st := by
          unfold stepClient
          rw [hf, hn]
        have hexp : expectedSub rpc base sh = .ok (statusJson st.statushash) := by
          unfold expectedSub
          rw [hbase, hn]
          rfl
        have hfind2 : ∀ s, s ≠ sh → (c.insert sh st).find s = c.find s := by
          intro s hne
          rw [Client.find_insert, if_neg (fun h => hne h.symm)]
        have hmono2 : ∀ s stx, base.find s = some stx → (c.insert sh st).find s = some stx := by
          intro s stx hb
          rw [Client.find_insert]
          by_cases he : sh = s
          · subst he
            rw [hmono _ _ hb] at hf
            cases hf
          · rw [if_neg he]
            exact hmono _ _ hb
        have hinv2 : ∀ s stx, (c.insert sh st).find s = some stx →
            base.find s = some stx ∨ (base.find s = none ∧ rpc.new_status s = .ok stx) := by
          intro s stx hcx
          rw [Client.find_insert] at hcx
          by_cases he : sh = s
          · rw [if_pos he] at hcx
            injection hcx with hcx
            subst he
            exact Or.inr ⟨hbase, hcx ▸ hn⟩
          · rw [if_neg he] at hcx
            exact hinv s stx hcx
        have h1' : ∀ s ∈ rest, (c.insert sh st).find s = none → s ∈ remaining.erase sh := by
          intro s hs hns
          have hne : s ≠ sh := by
            intro heq
            subst heq
            rw [Client.find_insert, if_pos rfl] at hns
            cases hns
          rw [hfind2 s hne] at hns
          exact (List.mem_erase_of_ne hne).mpr (h1 s (List.mem_cons_of_mem _ hs) hns)
        have hcnt' : ∀ s ∈ rest, (c.insert sh st).find s = none →
            (∀ stx, rpc.new_status s ≠ .ok stx) → occs s rest ≤ 1 := by
          intro s hs hns hne
          have hsne : s ≠ sh := by
            intro heq
            subst heq
            exact hne st hn
          rw [hfind2 s hsne] at hns
          exact le_trans (occs_le_cons s sh rest) (hcnt s (List.mem_cons_of_mem _ hs) hns hne)
        have hrest := ih (c.insert sh st) base (remaining.erase sh) hmono2 hinv2 h1' hcnt'
        simp only [subGo, hf]
        rw [if_pos hmem]
        simp only [hn, hrest, Option.map_some', List.foldl_cons, List.map_cons, hstep, hexp]

/-- Behaviour of `scripthashes_subscribe`, fully characterised under the
no-duplicated-failing-hash condition. -/
theorem scripthashes_subscribe_spec (rpc : Rpc) (client : Client) (shs : List ScriptHash)
    (hcnt : ∀ sh ∈ shs, client.find sh = none →
      (∀ st, rpc.new_status sh ≠ .ok st) → occs sh shs ≤ 1) :
    rpc.scripthashes_subscribe client shs =
      some (shs.foldl (stepClient rpc) client, shs.map (expectedSub rpc client)) := by
  rw [Rpc.scripthashes_subscribe]
  exact subGo_spec rpc shs client client _
    (fun _ _ h => h) (fun _ _ h => Or.inl h)
    (fun sh hs hn => mem_dedupKeys.mpr (List.mem_filter.mpr ⟨hs, by rw [hn]; rfl⟩))
    hcnt

/-- C6 (amended): for every list of script-hashes in which no script-hash
whose status build fails occurs at more than one position, batched subscribe
returns per-input results in input order — position `i` answers exactly for
`shs[i]` with the response `expectedSub` predicts — and a position holds an
error precisely when its hash is unsubscribed and its build fails, every
other position returning its status hash successfully.  (When a *failing*
hash occurs at several positions, the source instead panics on
`expect("missing scripthash status")` — see the counterexample.) -/
theorem C6_batched_subscribe_isolation : ∀ (rpc : Rpc) (client : Client) (shs : List ScriptHash),
    (∀ sh ∈ shs, client.find sh = none →
      (∀ st, rpc.new_status sh ≠ .ok st) → occs sh shs ≤ 1) →
    rpc.scripthashes_subscribe client shs =
      some (shs.foldl (stepClient rpc) client, shs.map (expectedSub rpc client)) ∧
    ∀ i (h : i < shs.length),
      (exOk (expectedSub rpc client (shs.get ⟨i, h⟩)) = false ↔
        client.find (shs.get ⟨i, h⟩) = none ∧
          ∀ st, rpc.new_status (shs.get ⟨i, h⟩) ≠ .ok st) := by
  intro rpc client shs hcnt
  refine ⟨scripthashes_subscribe_spec rpc client shs hcnt, ?_⟩
  intro i h
  generalize shs.get ⟨i, h⟩ = sh
  unfold expectedSub
  cases hf : client.find sh with
  | some st =>
    simp [exOk, hf]
  | none =>
    cases hn : rpc.new_status sh with
    | ok st =>
      simp only [hn, Except.map, exOk]
      constructor
      · intro hx
        cases hx
      · intro hx
        exact absurd rfl (hx.2 st)
    | error e =>
      simp only [hn, Except.map, exOk]
      constructor
      · intro _
        exact ⟨trivial, fun st hst => by cases hst⟩
      · intro _
        trivial

/-- C6 counterexample: with a failing status build, the batch `[s, s]`
(the same script-hash at two positions) makes `scripthashes_subscribe`
panic (`none`): position 2 does not return a status hash, and no per-input
result list exists at all. -/
theorem C6_counterexample :
    rpcFail.scripthashes_subscribe {} [5, 5] = none ∧
    rpcFail.new_status 5 = .error (.bad "status build failed") :=
  ⟨rfl, rfl⟩

/-- C6 witness: the theorem applied to the ready model and the duplicated
(but succeeding) batch `[5, 5]` — both positions answer with the null status
hash in order. -/
theorem C6_witness :
    rpc0.scripthashes_subscribe {} [5, 5] =
      some (([5, 5] : List ScriptHash).foldl (stepClient rpc0) {},
        ([5, 5] : List ScriptHash).map (expectedSub rpc0 {})) :=
  (C6_batched_subscribe_isolation rpc0 {} [5, 5]
    (fun sh _ _ hne => absurd rfl (hne (ScriptHashStatus.new sh)))).1

theorem collectOk_map_ok : ∀ calls : List Call, collectOk (calls.map .ok) = some calls := by
  intro calls
  induction calls with
  | nil => rfl
  | cons c t ih => simp [collectOk, ih]

theorem collectSubHashes_spec : ∀ calls : List Call,
    (∀ c ∈ calls, ∃ sh, c.params = .scriptHashSubscribe sh) →
    ∃ shs, collectSubHashes calls = some shs ∧
      List.Forall₂ (fun (c : Call) (sh : ScriptHash) =>
        c.params = .scriptHashSubscribe sh) calls shs := by
  intro calls
  induction calls with
  | nil =>
    intro _
    exact ⟨[], rfl, List.Forall₂.nil⟩
  | cons c t ih =>
    intro hall
    obtain ⟨sh, hsh⟩ := hall c (List.mem_cons_self _ _)
    obtain ⟨shs, hcol, hrel⟩ := ih (fun x hx => hall x (List.mem_cons_of_mem _ hx))
    refine ⟨sh :: shs, ?_, List.Forall₂.cons hsh hrel⟩
    simp [collectSubHashes, hsh, hcol]

theorem forall2_occs (sh : ScriptHash) : ∀ {calls : List Call} {shs : List ScriptHash},
    List.Forall₂ (fun (c : Call) (s : ScriptHash) =>
      c.params = .scriptHashSubscribe s) calls shs →
    occs sh shs = occsSub sh calls := by
  intro calls shs h
  induction h with
  | nil => rfl
  | @cons c s t1 t2 hrel _ ih =>
    show (if s = sh then 1 else 0) + occs sh t2 =
      (if c.params = .scriptHashSubscribe sh then 1 else 0) + occsSub sh t1
    rw [ih, hrel]
    by_cases he : s = sh
    · rw [if_pos he, if_pos (by rw [he])]
    · rw [if_neg he, if_neg (fun hx => he (by injection hx))]

/-- A ready single call on a subscribe request evaluates to the stepped
client and the wrapped expected response. -/
theorem single_call_subscribe (rpc : Rpc) (hready : rpc.tracker.statusOk = true)
    (client : Client) (c : Call) (sh : ScriptHash)
    (hrel : c.params = .scriptHashSubscribe sh) :
    single_call rpc client (.ok c) =
      some (stepClient rpc client sh, c.response (expectedSub rpc client sh)) := by
  rw [single_call, hready]
  simp only [hrel, Params.allowedNotReady, Bool.not_true, Bool.false_and, Bool.and_false,
    if_neg (by simp : ¬ (false && !false) = true)]
  simp [dispatch, scripthash_subscribe_eq]

/-- The one-by-one path over an all-subscribe batch, fully evaluated. -/
theorem singleCalls_subscribe (rpc : Rpc) (hready : rpc.tracker.statusOk = true) :
    ∀ (calls : List Call) (shs : List ScriptHash) (client : Client),
    List.Forall₂ (fun (c : Call) (s : ScriptHash) =>
      c.params = .scriptHashSubscribe s) calls shs →
    singleCalls rpc client (calls.map .ok) =
      some (shs.foldl (stepClient rpc) client,
        (calls.zip shs).map fun p => p.1.response (expectedSub rpc client p.2)) := by
  intro calls shs client h
  induction h generalizing client with
  | nil => rfl
  | @cons c s t1 t2 hrel htail ih =>
    simp only [List.map_cons, singleCalls]
    rw [single_call_subscribe rpc hready client c s hrel]
    simp only [Option.some_bind]
    rw [ih (stepClient rpc client s)]
    simp only [Option.map_some', List.foldl_cons, List.zip_cons_cons, List.map_cons]
    have hfun : (fun (p : Call × ScriptHash) =>
        p.1.response (expectedSub rpc (stepClient rpc client s) p.2)) =
        (fun (p : Call × ScriptHash) => p.1.response (expectedSub rpc client p.2)) := by
      funext p
      rw [expectedSub_stepClient]
    rw [hfun]

theorem zipResponses_map_expected (rpc : Rpc) (client : Client) :
    ∀ {calls : List Call} {shs : List ScriptHash},
    List.Forall₂ (fun (c : Call) (s : ScriptHash) =>
      c.params = .scriptHashSubscribe s) calls shs →
    zipResponses (shs.map (expectedSub rpc client)) calls =
      (calls.zip shs).map fun p => p.1.response (expectedSub rpc client p.2) := by
  intro calls shs h
  induction h with
  | nil => rfl
  | @cons c s t1 t2 hrel htail ih =>
    simp only [List.map_cons, zipResponses, List.zip_cons_cons] at ih ⊢
    rw [ih]

/-- C3 (amended): for every batch in which every call is
`blockchain.scripthash.subscribe`, provided the tracker is ready and no
script-hash whose status build fails is subscribed at more than one position,
the multi-call fast path and executing the calls one-by-one through the
single-call path produce equal response values at the same positions (and the
same final client).  (When the tracker is not ready the fast path bypasses
the readiness gate, and the two paths differ — see the counterexample.) -/
theorem C3_multi_call_fast_path : ∀ (rpc : Rpc) (client : Client) (calls : List Call),
    rpc.tracker.statusOk = true →
    (∀ c ∈ calls, ∃ sh, c.params = .scriptHashSubscribe sh) →
    (∀ sh, client.find sh = none → (∀ st, rpc.new_status sh ≠ .ok st) →
      occsSub sh calls ≤ 1) →
    try_multi_call rpc client (calls.map .ok) =
      some (singleCalls rpc client (calls.map .ok)) := by
  intro rpc client calls hready hall hcnt
  obtain ⟨shs, hcol, hrel⟩ := collectSubHashes_spec calls hall
  simp only [try_multi_call, collectOk_map_ok, hcol]
  rw [scripthashes_subscribe_spec rpc client shs
    (fun sh _ hf hne => by rw [forall2_occs sh hrel]; exact hcnt sh hf hne)]
  rw [singleCalls_subscribe rpc hready calls shs client hrel]
  simp only [Option.map_some']
  rw [zipResponses_map_expected rpc client hrel]

/-- C3 counterexample: with the tracker not ready, the batch holding the
single subscribe call `subCall7` gets a success response from the multi-call
fast path but a `-32603` error from the one-by-one single-call path: the
responses differ. -/
theorem C3_counterexample :
    try_multi_call rpcNR {} [.ok subCall7] =
      some (some (⟨none, [(5, ScriptHashStatus.new 5)]⟩, [result_msg (.num 7) .null])) ∧
    singleCalls rpcNR {} [.ok subCall7] =
      some ({}, [error_msg (.num 7) .unavailableIndex]) ∧
    errorCode (result_msg (.num 7) .null) = none ∧
    errorCode (error_msg (.num 7) .unavailableIndex) = some (-32603) :=
  ⟨rfl, rfl, rfl, rfl⟩

/-- C3 witness: the equivalence theorem applied to the ready model and the
one-call batch `[subCall7]`. -/
theorem C3_witness :
    try_multi_call rpc0 {} ([subCall7].map .ok) =
      some (singleCalls rpc0 {} ([subCall7].map .ok)) :=
  C3_multi_call_fast_path rpc0 {} [subCall7] rfl
    (fun c hc => ⟨5, by rcases List.mem_singleton.mp hc with rfl; rfl⟩)
    (fun sh _ hne => absurd rfl (hne (ScriptHashStatus.new sh)))

/-- Responses produced by `Call::response` always carry the call id. -/
theorem idOf_response (call : Call) (r : Except HErr Json) :
    idOf (call.response r) = some call.id := by
  cases r with
  | ok v => rfl
  | error e => cases e <;> rfl

theorem Call_parse_ok_id (r : Request) (c : Call) (h : Call.parse r = .ok c) :
    c.id = r.id := by
  simp only [Call.parse] at h
  cases hq : Params.parse r.method r.params with
  | ok p =>
    simp only [hq] at h
    injection h with h
    rw [← h]
  | error e =>
    simp only [hq] at h
    cases h

theorem Call_parse_error_form (r : Request) (j : Json) (h : Call.parse r = .error j) :
    ∃ e, j = error_msg r.id (.standard e) := by
  simp only [Call.parse] at h
  cases hq : Params.parse r.method r.params with
  | ok p =>
    simp only [hq] at h
    cases h
  | error e =>
    simp only [hq] at h
    injection h with h
    exact ⟨e, h.symm⟩

/-- Every response `single_call` produces for a parsed request carries the
request's id. -/
theorem single_call_parse_id (rpc : Rpc) (client : Client) (r : Request) (c2 : Client)
    (v : Json) (h : single_call rpc client (Call.parse r) = some (c2, v)) :
    idOf v = some r.id := by
  cases hp : Call.parse r with
  | error j =>
    rw [hp] at h
    simp only [single_call, Option.some.injEq, Prod.mk.injEq] at h
    obtain ⟨e, hj⟩ := Call_parse_error_form r j hp
    rw [← h.2, hj]
    rfl
  | ok c =>
    rw [hp] at h
    have hid := Call_parse_ok_id r c hp
    rw [single_call] at h
    split at h
    · simp only [Option.some.injEq, Prod.mk.injEq] at h
      rw [← h.2, ← hid]
      rfl
    · rcases Option.map_eq_some'.mp h with ⟨⟨cx, res⟩, hd, he⟩
      simp only [Prod.mk.injEq] at he
      rw [← he.2, idOf_response, hid]

theorem subGo_length (rpc : Rpc) : ∀ (shs : List ScriptHash) (c : Client)
    (rem : List ScriptHash) (c2 : Client) (rs : List (Except HErr Json)),
    subGo rpc c rem shs = some (c2, rs) → rs.length = shs.length := by
  intro shs
  induction shs with
  | nil =>
    intro c rem c2 rs h
    simp only [subGo, Option.some.injEq, Prod.mk.injEq] at h
    rw [← h.2]
    rfl
  | cons sh rest ih =>
    intro c rem c2 rs h
    simp only [subGo] at h
    cases hf : c.find sh with
    | some st =>
      simp only [hf] at h
      rcases Option.map_eq_some'.mp h with ⟨⟨cx, rs'⟩, hx, he⟩
      simp only [Prod.mk.injEq] at he
      rw [← he.2]
      simp [ih c rem cx rs' hx]
    | none =>
      simp only [hf] at h
      by_cases hmem : sh ∈ rem
      · rw [if_pos hmem] at h
        cases hn : rpc.new_status sh with
        | error e =>
          simp only [hn] at h
          rcases Option.map_eq_some'.mp h with ⟨⟨cx, rs'⟩, hx, he⟩
          simp only [Prod.mk.injEq] at he
          rw [← he.2]
          simp [ih _ _ cx rs' hx]
        | ok st =>
          simp only [hn] at h
          rcases Option.map_eq_some'.mp h with ⟨⟨cx, rs'⟩, hx, he⟩
          simp only [Prod.mk.injEq] at he
          rw [← he.2]
          simp [ih _ _ cx rs' hx]
      · rw [if_neg hmem] at h
        cases h

theorem collectSubHashes_length : ∀ (calls : List Call) (shs : List ScriptHash),
    collectSubHashes calls = some shs → shs.length = calls.length := by
  intro calls
  induction calls with
  | nil =>
    intro shs h
    injection h with h
    rw [← h]
    rfl
  | cons c t ih =>
    intro shs h
    simp only [collectSubHashes] at h
    cases hp : c.params <;> simp only [hp] at h <;> try cases h
    case scriptHashSubscribe sh =>
      rcases Option.map_eq_some'.mp h with ⟨shs', hs', he⟩
      rw [← he]
      simp [ih shs' hs']

theorem collectOk_parse : ∀ (reqs : List Request) (vc : List Call),
    collectOk (reqs.map Call.parse) = some vc →
    List.Forall₂ (fun (r : Request) (c : Call) => c.id = r.id) reqs vc := by
  intro reqs
  induction reqs with
  | nil =>
    intro vc h
    injection h with h
    rw [← h]
    exact .nil
  | cons r t ih =>
    intro vc h
    simp only [List.map_cons] at h
    cases hp : Call.parse r with
    | error j =>
      rw [hp] at h
      simp only [collectOk] at h
      cases h
    | ok c0 =>
      rw [hp] at h
      simp only [collectOk] at h
      rcases Option.map_eq_some'.mp h with ⟨vc', hvc', he⟩
      rw [← he]
      exact .cons (Call_parse_ok_id r c0 hp) (ih vc' hvc')

theorem zipResponses_cons (r : Except HErr Json) (rs : List (Except HErr Json))
    (c : Call) (cs : List Call) :
    zipResponses (r :: rs) (c :: cs) = c.response r :: zipResponses rs cs := rfl

theorem zipResp_ids : ∀ (reqs : List Request) (vc : List Call)
    (rs : List (Except HErr Json)),
    List.Forall₂ (fun (r : Request) (c : Call) => c.id = r.id) reqs vc →
    rs.length = vc.length →
    (zipResponses rs vc).length = reqs.length ∧
    ∀ i (h1 : i < (zipResponses rs vc).length) (h2 : i < reqs.length),
      idOf ((zipResponses rs vc).get ⟨i, h1⟩) = some ((reqs.get ⟨i, h2⟩).id) := by
  intro reqs vc rs h
  induction h generalizing rs with
  | nil =>
    intro hlen
    have hrs : rs = [] := List.eq_nil_of_length_eq_zero hlen
    subst hrs
    exact ⟨rfl, fun i h1 h2 => absurd h2 (Nat.not_lt_zero i)⟩
  | @cons r c t1 t2 hrel htail ih =>
    intro hlen
    cases rs with
    | nil => simp at hlen
    | cons r0 rst =>
      have hlen2 : rst.length = t2.length := by simpa using hlen
      obtain ⟨hl, hi⟩ := ih rst hlen2
      rw [zipResponses_cons]
      constructor
      · simp [hl]
      · intro i h1 h2
        cases i with
        | zero =>
          show idOf (c.response r0) = some r.id
          rw [idOf_response, hrel]
        | succ n =>
          exact hi n (by simpa using h1) (by simpa using h2)

theorem singleCalls_parse_ids (rpc : Rpc) : ∀ (reqs : List Request) (client c2 : Client)
    (rs : List Json),
    singleCalls rpc client (reqs.map Call.parse) = some (c2, rs) →
    rs.length = reqs.length ∧
    ∀ i (h1 : i < rs.length) (h2 : i < reqs.length),
      idOf (rs.get ⟨i, h1⟩) = some ((reqs.get ⟨i, h2⟩).id) := by
  intro reqs
  induction reqs with
  | nil =>
    intro client c2 rs h
    simp only [List.map_nil, singleCalls, Option.some.injEq, Prod.mk.injEq] at h
    rw [← h.2]
    exact ⟨rfl, fun i h1 h2 => absurd h2 (Nat.not_lt_zero i)⟩
  | cons r t ih =>
    intro client c2 rs h
    simp only [List.map_cons, singleCalls] at h
    rcases Option.bind_eq_some.mp h with ⟨⟨c1, v⟩, hs, hrest⟩
    rcases Option.map_eq_some'.mp hrest with ⟨⟨cx, vs⟩, ht, he⟩
    simp only [Prod.mk.injEq] at he
    obtain ⟨hl, hi⟩ := ih c1 cx vs ht
    have hid := single_call_parse_id rpc client r c1 v hs
    rw [← he.2]
    constructor
    · simp [hl]
    · intro i h1 h2
      cases i with
      | zero => exact hid
      | succ n =>
        exact hi n (by simpa using h1) (by simpa using h2)

theorem handle_requests_length (rpc : Rpc) : ∀ (lines : List (Except Unit Json))
    (client c2 : Client) (outs : List String),
    handle_requests rpc client lines = some (c2, outs) → outs.length = lines.length := by
  intro lines
  induction lines with
  | nil =>
    intro client c2 outs h
    simp only [handle_requests, Option.some.injEq, Prod.mk.injEq] at h
    rw [← h.2]
    rfl
  | cons l t ih =>
    intro client c2 outs h
    simp only [handle_requests] at h
    rcases Option.bind_eq_some.mp h with ⟨⟨c1, v⟩, _, hrest⟩
    rcases Option.map_eq_some'.mp hrest with ⟨⟨cx, os⟩, ht, he⟩
    simp only [Prod.mk.injEq] at he
    rw [← he.2]
    simp [ih c1 cx os ht]

/-- C8: `handle_requests` emits exactly one output line per input line, and
for an input line that parses to a batch of `n` requests, its response value
is a JSON array of exactly `n` responses, the response at each index
carrying the id of the request at the same index. -/
theorem C8_batch_shape :
    (∀ (rpc : Rpc) (client : Client) (lines : List (Except Unit Json))
      (c2 : Client) (outs : List String),
      handle_requests rpc client lines = some (c2, outs) →
      outs.length = lines.length) ∧
    (∀ (rpc : Rpc) (client : Client) (line : Except Unit Json) (reqs : List Request)
      (c : Client) (out : Json),
      parse_requests line = .ok (.batch reqs) →
      handleLine rpc client line = some (c, out) →
      out.isArr = true ∧ out.elems.length = reqs.length ∧
      ∀ i (h1 : i < out.elems.length) (h2 : i < reqs.length),
        idOf (out.elems.get ⟨i, h1⟩) = some ((reqs.get ⟨i, h2⟩).id)) := by
  constructor
  · intro rpc client lines c2 outs h
    exact handle_requests_length rpc lines client c2 outs h
  · intro rpc client line reqs c out hparse h
    rw [handleLine] at h
    simp only [hparse, Calls.parse] at h
    simp only [handle_calls] at h
    cases hm : try_multi_call rpc client (reqs.map Call.parse) with
    | none =>
      simp only [hm] at h
      rcases Option.map_eq_some'.mp h with ⟨⟨cx, rs⟩, hsc, he⟩
      simp only [Prod.mk.injEq] at he
      obtain ⟨hlen, hids⟩ := singleCalls_parse_ids rpc reqs client cx rs hsc
      rw [← he.2]
      exact ⟨rfl, hlen, hids⟩
    | some res =>
      simp only [hm] at h
      rcases Option.map_eq_some'.mp h with ⟨⟨cx, rs⟩, hres, he⟩
      simp only [Prod.mk.injEq] at he
      rw [try_multi_call] at hm
      cases hok : collectOk (reqs.map Call.parse) with
      | none =>
        simp only [hok] at hm
        cases hm
      | some vc =>
        simp only [hok] at hm
        cases hsh : collectSubHashes vc with
        | none =>
          simp only [hsh] at hm
          cases hm
        | some shs =>
          simp only [hsh] at hm
          injection hm with hm
          rw [← hm] at hres
          rcases Option.map_eq_some'.mp hres with ⟨⟨cy, subRs⟩, hsubs, he2⟩
          simp only [Prod.mk.injEq] at he2
          have hF2 := collectOk_parse reqs vc hok
          have hlenvc : vc.length = reqs.length := (List.Forall₂.length_eq hF2).symm
          have hlenshs : shs.length = vc.length := collectSubHashes_length vc shs hsh
          have hlensub : subRs.length = shs.length := by
            rw [Rpc.scripthashes_subscribe] at hsubs
            exact subGo_length rpc _ _ _ _ _ hsubs
          obtain ⟨hl, hi⟩ := zipResp_ids reqs vc subRs hF2 (by rw [hlensub, hlenshs])
          rw [← he.2, ← he2.2]
          exact ⟨rfl, hl, hi⟩

/-- C8 witness: the length part applied to a malformed-JSON line, and the
batch part applied to a one-element batch holding a `server.ping` request
with id 1. -/
theorem C8_witness :
    ((error_msg_no_id .parseError).toStr :: ([] : List String)).length =
      ([.error ()] : List (Except Unit Json)).length ∧
    (Json.arr [result_msg (.num 1) .null]).elems.length =
      ([⟨.num 1, "server.ping", .arr []⟩] : List Request).length :=
  ⟨C8_batch_shape.1 rpc0 {} [.error ()] {} [(error_msg_no_id .parseError).toStr] rfl,
   (C8_batch_shape.2 rpc0 {}
      (.ok (.arr [.obj [("id", .num 1), ("method", .str "server.ping"), ("params", .arr [])]]))
      [⟨.num 1, "server.ping", .arr []⟩] {} (.arr [result_msg (.num 1) .null])
      rfl rfl).2.1⟩

end Electrs
